import Mathlib

/-!
Verification of the highlight-selection and keyframe-extraction engine.

The engine's numeric values (Python floats) are modelled as rationals, and its
dynamically-typed dict records as structures.  Python `list.sort` is a stable
sort, and so is `List.insertionSort`, which we use to embed it.
-/

set_option maxHeartbeats 1000000
set_option maxRecDepth 100000

/-- Python `round(x, 2)`: rounding to two decimal places, modelled over ℚ. -/
def round2 (x : ℚ) : ℚ := (round (100 * x) : ℤ) / 100

/-- A subtitle span `{start, end, text}`.  The dict key `end` is a Lean keyword,
so the field is called `stop` here. -/
structure Subtitle where
  start : ℚ
  stop : ℚ
  text : String
deriving DecidableEq

/-- A scene record as consumed and produced by `HighlightSelector`.  The
engine-attached fields (`dialogue`, `subtitle_count`, `highlight_score`,
`selected_id`) default to the values the code treats as absent. -/
structure Scene where
  id : ℤ
  start_time : ℚ
  end_time : ℚ
  duration : ℚ
  dialogue : String := ""
  subtitle_count : ℕ := 0
  highlight_score : ℚ := 0
  selected_id : ℕ := 0
deriving DecidableEq

namespace HighlightSelector

/-- The subtitle filter of `_add_dialogue_to_scene` (highlight_selector.py,
lines 112–117): permissive interval intersection with `[start, end)`. -/
def sceneSubtitles (scene : Scene) (subtitles : List Subtitle) : List Subtitle :=
  let start := scene.start_time
  let stop := scene.end_time
  subtitles.filter fun sub =>
    decide ((sub.start ≥ start ∧ sub.start < stop) ∨
            (sub.stop > start ∧ sub.stop ≤ stop) ∨
            (sub.start ≤ start ∧ sub.stop ≥ stop))

/-- `_add_dialogue_to_scene`: attach the space-joined overlapping subtitle texts
and the overlapping-subtitle count to a (copy of the) scene. -/
def addDialogueToScene (scene : Scene) (subtitles : List Subtitle) : Scene :=
  let subs := sceneSubtitles scene subtitles
  { scene with
      dialogue := " ".intercalate (subs.map Subtitle.text),
      subtitle_count := subs.length }

/-- The duration component of `_calculate_highlight_score`
(highlight_selector.py, lines 169–176). -/
def durationScore (duration : ℚ) : ℚ :=
  if 5 ≤ duration ∧ duration ≤ 15 then 100
  else if duration < 5 then duration / 5 * 100
  else max 0 (100 - (duration - 15) * 3)

/-- `_calculate_highlight_score` (highlight_selector.py, lines 129–180):
dialogue density (weight 0.4), subtitle count (weight 0.3), duration fitness
(weight 0.3), rounded to two decimals. -/
def calculateHighlightScore (scene : Scene) : ℚ :=
  let duration := scene.duration
  let dialogue_len : ℕ := scene.dialogue.length
  let dialogue_score : ℚ :=
    if 0 < dialogue_len then
      let dialogue_density : ℚ := if 0 < duration then (dialogue_len : ℚ) / duration else 0
      min (dialogue_density / 8 * 100) 100
    else 0
  let subtitle_score : ℚ :=
    if 0 < scene.subtitle_count then min ((scene.subtitle_count : ℚ) * 20) 100 else 0
  round2 (dialogue_score * 0.4 + subtitle_score * 0.3 + durationScore duration * 0.3)

/-- Enrich one scene: `_add_dialogue_to_scene` followed by the score assignment
(highlight_selector.py, lines 52–55). -/
def enrichScene (subtitles : List Subtitle) (scene : Scene) : Scene :=
  let s := addDialogueToScene scene subtitles
  { s with highlight_score := calculateHighlightScore s }

/-- Descending comparison by `highlight_score`, the sort key of step 2. -/
def scoreGE (a b : Scene) : Prop := b.highlight_score ≤ a.highlight_score

instance : DecidableRel scoreGE := fun a b => inferInstanceAs (Decidable (_ ≤ _))

instance : IsTotal Scene scoreGE := ⟨fun a b => le_total b.highlight_score a.highlight_score⟩

instance : IsTrans Scene scoreGE := ⟨fun _ _ _ h h2 => le_trans h2 h⟩

/-- Ascending comparison by `start_time`, the sort key of step 4. -/
def startLE (a b : Scene) : Prop := a.start_time ≤ b.start_time

instance : DecidableRel startLE := fun a b => inferInstanceAs (Decidable (_ ≤ _))

instance : IsTotal Scene startLE := ⟨fun a b => le_total a.start_time b.start_time⟩

instance : IsTrans Scene startLE := ⟨fun _ _ _ h h2 => le_trans h h2⟩

/-- Strict comparison by `start_time` (used only in statements and proofs). -/
def startLT (a b : Scene) : Prop := a.start_time < b.start_time

instance : IsTrans Scene startLT := ⟨fun _ _ _ h h2 => lt_trans h h2⟩

/-- The greedy accumulation loop (highlight_selector.py, lines 77–90): accept a
scene when it still fits the budget, and break out of the loop as soon as the
running total reaches `target_duration * 0.95`.  The loop body appends at most
one scene per iteration and the break test runs every iteration, after the
acceptance test. -/
def greedy (target : ℚ) : List Scene → ℚ → List Scene
  | [], _ => []
  | scene :: rest, total =>
    if total + scene.duration ≤ target then
      if total + scene.duration ≥ target * 0.95 then [scene]
      else scene :: greedy target rest (total + scene.duration)
    else
      if total ≥ target * 0.95 then []
      else greedy target rest total

/-- The `enumerate(selected_scenes, start=1)` loop of step 5: assign
`selected_id` sequentially. -/
def assignIds : ℕ → List Scene → List Scene
  | _, [] => []
  | i, scene :: rest => { scene with selected_id := i } :: assignIds (i + 1) rest

/-- `select_highlights` (highlight_selector.py, lines 20–104), on well-formed
scene records (every required key present, so the per-scene `try` never fires
and the enrichment loop is a plain map). -/
def selectHighlights (scenes : List Scene) (subtitles : List Subtitle)
    (target_duration : ℚ := 600) : List Scene :=
  if scenes.isEmpty then []
  else
    let enriched := scenes.map (enrichScene subtitles)
    if enriched.isEmpty then []
    else
      let sorted := List.insertionSort scoreGE enriched
      let selected := greedy target_duration sorted 0
      let chrono := List.insertionSort startLE selected
      assignIds 1 chrono

/-- A raw scene dict as it reaches `select_highlights`: the keys the enrichment
and scoring steps read (`start_time`, `end_time`, `duration`) may be absent, in
which case the Python subscript raises `KeyError` inside the per-scene `try`
block. -/
structure RawScene where
  id : ℤ
  start_time : Option ℚ
  end_time : Option ℚ
  duration : Option ℚ
deriving DecidableEq

/-- The body of the per-scene `try` block (highlight_selector.py, lines 52–55)
on a raw scene: `_add_dialogue_to_scene` reads `scene['start_time']` and
`scene['end_time']`, `_calculate_highlight_score` reads `scene['duration']`;
a missing key raises, modelled as `Except.error`. -/
def enrichRaw (subtitles : List Subtitle) (scene : RawScene) : Except Unit Scene := do
  let start ← match scene.start_time with | some v => .ok v | none => .error ()
  let stop ← match scene.end_time with | some v => .ok v | none => .error ()
  let dur ← match scene.duration with | some v => .ok v | none => .error ()
  let base : Scene := { id := scene.id, start_time := start, end_time := stop, duration := dur }
  let s := addDialogueToScene base subtitles
  .ok { s with highlight_score := calculateHighlightScore s }

/-- The enrichment `for` loop of `select_highlights` (lines 50–59): a scene
whose processing raises is logged and skipped (`continue`); the remaining
scenes are still processed.  No other policy exists in the code. -/
def enrichLoop (subtitles : List Subtitle) : List RawScene → List Scene
  | [] => []
  | scene :: rest =>
    match enrichRaw subtitles scene with
    | .ok s => s :: enrichLoop subtitles rest
    | .error _ => enrichLoop subtitles rest

/-- Whether the per-scene `try` block succeeds for a raw scene. -/
def enrichOk (subtitles : List Subtitle) (scene : RawScene) : Bool :=
  (enrichRaw subtitles scene).toOption.isSome

/-- `select_highlights` on raw scene dicts, with the per-scene failure handling
of lines 50–63 made explicit. -/
def selectHighlightsRaw (scenes : List RawScene) (subtitles : List Subtitle)
    (target_duration : ℚ := 600) : List Scene :=
  if scenes.isEmpty then []
  else
    let enriched := enrichLoop subtitles scenes
    if enriched.isEmpty then []
    else
      let sorted := List.insertionSort scoreGE enriched
      let selected := greedy target_duration sorted 0
      let chrono := List.insertionSort startLE selected
      assignIds 1 chrono

end HighlightSelector

/-- The spec's permissive overlap rule for a subtitle against a scene `[s,e)`:
`sub.start ∈ [s,e)` or `sub.end ∈ (s,e]` or the subtitle fully contains
`[s,e]`.  Stated from the spec's words, to be compared with the code. -/
def specOverlap (s e : ℚ) (sub : Subtitle) : Prop :=
  (s ≤ sub.start ∧ sub.start < e) ∨ (s < sub.stop ∧ sub.stop ≤ e) ∨
    (sub.start ≤ s ∧ e ≤ sub.stop)

instance (s e : ℚ) (sub : Subtitle) : Decidable (specOverlap s e sub) :=
  inferInstanceAs (Decidable (_ ∨ _))

/-- Dialogue aggregation exactly as the spec words it: the texts of the
subtitles satisfying the permissive rule, space-joined in input order. -/
def specDialogue (subtitles : List Subtitle) (s e : ℚ) : String :=
  " ".intercalate ((subtitles.filter fun sub => decide (specOverlap s e sub)).map Subtitle.text)

/-- Simple containment of the subtitle inside the scene, the rule the spec
calls strictly less permissive than `specOverlap`. -/
def containedIn (s e : ℚ) (sub : Subtitle) : Prop := s ≤ sub.start ∧ sub.stop ≤ e

instance (s e : ℚ) (sub : Subtitle) : Decidable (containedIn s e sub) :=
  inferInstanceAs (Decidable (_ ∧ _))

/-- A face record attached to a fused scene; the scorer only ever counts them,
so the payload is opaque. -/
structure FaceRecord where
  payload : String := ""
deriving DecidableEq

/-- The `visual` sub-record produced by `_merge_vision_data`. -/
structure VisualInfo where
  clip_labels : List String := []
  blip2_caption : String := ""
  motion_score : ℚ := 0
deriving DecidableEq

/-- A fused scene record as read by `MultimodalFusion._calculate_highlight_score`:
`visual`, `ocr.texts`, `faces` and `dialogue` are looked up with `.get`
defaults, `duration` by plain subscript. -/
structure FusedScene where
  id : ℤ
  start_time : ℚ
  end_time : ℚ
  duration : ℚ
  visual : Option VisualInfo := none
  ocr_texts : List String := []
  faces : List FaceRecord := []
  dialogue : String := ""
deriving DecidableEq

namespace MultimodalFusion

/-- `_get_dialogue_in_range` (multimodal_fusion.py, lines 104–117): collect the
texts of the subtitles with `sub['start'] >= start and sub['end'] <= end` and
space-join them. -/
def getDialogueInRange (subtitles : List Subtitle) (start stop : ℚ) : String :=
  " ".intercalate
    ((subtitles.filter fun sub => decide (sub.start ≥ start ∧ sub.stop ≤ stop)).map Subtitle.text)

/-- The duration component of `MultimodalFusion._calculate_highlight_score`
(lines 188–195): same breakpoints as the dialogue-only formula, falloff
coefficient 5 above 15 seconds. -/
def mmDurationScore (duration : ℚ) : ℚ :=
  if 5 ≤ duration ∧ duration ≤ 15 then 100
  else if duration < 5 then duration / 5 * 100
  else max 0 (100 - (duration - 15) * 5)

/-- `MultimodalFusion._calculate_highlight_score` (lines 155–197).  The
weighted sum is returned unrounded. -/
def calculateHighlightScore (scene : FusedScene) : ℚ :=
  let dialogue_len : ℚ := (scene.dialogue.length : ℚ)
  let dialogue_score := min (dialogue_len / scene.duration / 10 * 100) 100
  let motion_score := ((scene.visual.map VisualInfo.motion_score).getD 0) * 100
  let face_score := min ((scene.faces.length : ℚ) * 30) 100
  let special_score := min ((scene.ocr_texts.length : ℚ) * 20) 100
  dialogue_score * 0.3 + motion_score * 0.25 + face_score * 0.2 +
    special_score * 0.15 + mmDurationScore scene.duration * 0.1

end MultimodalFusion

/-- Python `int(x)` on a float: truncation toward zero. -/
def pyInt (q : ℚ) : ℤ := if 0 ≤ q then ⌊q⌋ else ⌈q⌉

/-- A scene dict as consumed by `KeyframeExtractor._extract_from_scene`. -/
structure KFScene where
  id : ℕ
  selected_id : Option ℕ := none
  index : Option ℕ := none
  start_frame : ℤ := 0
  end_frame : ℤ := 0
  start_time : ℚ
  end_time : ℚ
  duration : ℚ
deriving DecidableEq

/-- A keyframe record (`image_path` is omitted: it is only produced by the
file-writing side effect). -/
structure Keyframe where
  scene_id : ℕ
  scene_index : ℕ
  keyframe_index : ℕ
  time : ℚ
  frame_number : ℤ
  quality_score : ℚ
  image_hash : Option String := none
deriving DecidableEq

namespace KeyframeExtractor

/-- A scored candidate frame, over an abstract pixel-buffer type. -/
structure Candidate (Frame : Type) where
  time : ℚ
  frame_number : ℤ
  frame : Frame
  quality_score : ℚ

/-- The sampling interval: `mode_configs` for `low`/`medium`/`high`
(keyframe_extractor.py, lines 38–42), `2.0` for any other mode (line 123). -/
def intervalFor (mode : String) : ℚ :=
  if mode = "low" then 3
  else if mode = "medium" then 2
  else if mode = "high" then 1
  else 2

/-- `scene_id = scene.get('selected_id') or scene.get('id')` (line 109),
with Python truthiness: a missing or zero `selected_id` falls back to `id`. -/
def kfSceneId (scene : KFScene) : ℕ :=
  match scene.selected_id with
  | some n => if n = 0 then scene.id else n
  | none => scene.id

/-- `scene_index = scene.get('index', scene_id)` (line 110). -/
def kfSceneIndex (scene : KFScene) : ℕ :=
  scene.index.getD (kfSceneId scene)

/-- The sampling `while` loop (lines 127–131): starting at offset 0, append
`start_time + offset` and step by `interval` while the offset is below the
scene duration and fewer than `max_frames` candidates exist.  The loop appends
on every iteration, so the remaining capacity is a decreasing fuel. -/
def sampleLoop (start_time duration interval : ℚ) : ℚ → ℕ → List ℚ
  | _, 0 => []
  | current, n + 1 =>
    if current < duration then
      (start_time + current) :: sampleLoop start_time duration interval (current + interval) n
    else []

/-- The candidate time list (lines 127–139): the `while`-generated list, or the
first/middle/last fallback, truncated to `max_frames`, when it is shorter than
`max_frames`. -/
def sampleTimes (scene : KFScene) (interval : ℚ) (max_frames : ℕ) : List ℚ :=
  let st := sampleLoop scene.start_time scene.duration interval 0 max_frames
  if st.length < max_frames then
    [scene.start_time, scene.start_time + scene.duration / 2, scene.end_time - 0.1].take max_frames
  else st

variable {Frame : Type}

/-- The frame-retrieval loop (lines 142–159): seek to `int(time_sec * fps)`,
skip candidates the capture cannot read (`ret` false, modelled as `none`), and
score the rest with `_evaluate_frame_quality` (abstract here: it is a pure
function of the pixel buffer). -/
def candidatesFor (readFrame : ℤ → Option Frame) (evalQuality : Frame → ℚ) (fps : ℚ)
    (times : List ℚ) : List (Candidate Frame) :=
  times.filterMap fun time_sec =>
    let frame_number := pyInt (time_sec * fps)
    (readFrame frame_number).map fun frame =>
      { time := time_sec, frame_number := frame_number, frame := frame,
        quality_score := evalQuality frame }

/-- Descending comparison by `quality_score` (the sort key of line 162). -/
def qualityGE (a b : Candidate Frame) : Prop := b.quality_score ≤ a.quality_score

instance : DecidableRel (@qualityGE Frame) :=
  fun a b => inferInstanceAs (Decidable (_ ≤ _))

instance : IsTotal (Candidate Frame) qualityGE :=
  ⟨fun a b => le_total b.quality_score a.quality_score⟩

instance : IsTrans (Candidate Frame) qualityGE :=
  ⟨fun _ _ _ h h2 => le_trans h2 h⟩

/-- Ascending comparison by `time` (the sort key of line 166). -/
def timeLE (a b : Candidate Frame) : Prop := a.time ≤ b.time

instance : DecidableRel (@timeLE Frame) :=
  fun a b => inferInstanceAs (Decidable (_ ≤ _))

instance : IsTotal (Candidate Frame) timeLE :=
  ⟨fun a b => le_total a.time b.time⟩

instance : IsTrans (Candidate Frame) timeLE :=
  ⟨fun _ _ _ h h2 => le_trans h h2⟩

/-- The result-building `enumerate` loop (lines 169–190), hashing each kept
frame (abstract hash function of the pixel buffer). -/
def buildKeyframes (hashImage : Frame → String) (scene_id scene_index : ℕ) :
    ℕ → List (Candidate Frame) → List Keyframe
  | _, [] => []
  | idx, c :: rest =>
    { scene_id := scene_id, scene_index := scene_index, keyframe_index := idx,
      time := c.time, frame_number := c.frame_number, quality_score := c.quality_score,
      image_hash := some (hashImage c.frame) } :: buildKeyframes hashImage scene_id scene_index (idx + 1) rest

/-- `_extract_from_scene` (keyframe_extractor.py, lines 102–192), parametrised
by the capture, the quality evaluator and the perceptual hasher. -/
def extractFromScene (readFrame : ℤ → Option Frame) (evalQuality : Frame → ℚ)
    (hashImage : Frame → String) (mode : String) (max_frames : ℕ) (fps : ℚ)
    (scene : KFScene) : List Keyframe :=
  let interval := intervalFor mode
  let candidates := candidatesFor readFrame evalQuality fps (sampleTimes scene interval max_frames)
  let sorted := List.insertionSort qualityGE candidates
  let selected := sorted.take max_frames
  let chrono := List.insertionSort timeLE selected
  buildKeyframes hashImage (kfSceneId scene) (kfSceneIndex scene) 0 chrono

/-- Python truthiness of the `image_hash` value read by `remove_duplicates`:
a missing key (`None`) or an empty string is falsy. -/
def hashFalsy : Option String → Bool
  | none => true
  | some s => s = ""

/-- The dedup loop of `remove_duplicates` (lines 273–282): keep a keyframe
when its hash is falsy or unseen, and record non-falsy hashes of kept
keyframes. -/
def removeDupAux : List String → List Keyframe → List Keyframe
  | _, [] => []
  | seen, kf :: rest =>
    match kf.image_hash with
    | none => kf :: removeDupAux seen rest
    | some h =>
      if h = "" then kf :: removeDupAux seen rest
      else if h ∈ seen then removeDupAux seen rest
      else kf :: removeDupAux (h :: seen) rest

/-- `remove_duplicates` (lines 258–285).  The `similarity_threshold` parameter
is accepted and never read. -/
def removeDuplicates (keyframes : List Keyframe) (similarity_threshold : ℚ := 0.9) :
    List Keyframe :=
  if keyframes.isEmpty then keyframes
  else removeDupAux [] keyframes

end KeyframeExtractor

/-- Scene 1 of the spec's end-to-end scenario. -/
def c5scene1 : Scene := { id := 1, start_time := 0, end_time := 8, duration := 8 }

/-- Scene 2 of the spec's end-to-end scenario. -/
def c5scene2 : Scene := { id := 2, start_time := 8, end_time := 20, duration := 12 }

/-- Subtitles realising the scenario's enrichment: four spans inside scene 1
(subtitle count 4) whose space-joined texts have exactly 80 characters, and
nothing overlapping scene 2. -/
def c5subs : List Subtitle :=
  [{ start := 0, stop := 1, text := "aaaaaaaaaaaaaaaaaaaa" },
   { start := 2, stop := 3, text := "aaaaaaaaaaaaaaaaaaa" },
   { start := 4, stop := 5, text := "aaaaaaaaaaaaaaaaaaa" },
   { start := 6, stop := 7, text := "aaaaaaaaaaaaaaaaaaa" }]

/-- A scene `[0,10)` used to exhibit the divergence of the two dialogue
aggregation paths. -/
def c3scene : Scene := { id := 1, start_time := 0, end_time := 10, duration := 10 }

/-- A subtitle beginning before `c3scene` and ending inside it: it satisfies
the permissive rule but not simple containment. -/
def c3sub : Subtitle := { start := -1, stop := 5, text := "a" }

/-- A concrete fused scene used to witness the multimodal-score theorem. -/
def c6visual : VisualInfo := { motion_score := 0.5 }

/-- A concrete fused scene used to witness the multimodal-score theorem. -/
def c6scene : FusedScene :=
  { id := 1, start_time := 0, end_time := 10, duration := 10,
    visual := some c6visual, ocr_texts := ["LOGO"],
    faces := [{}, {}], dialogue := "aaaaa" }

/-- A keyframe with hash `"abc"`, used to witness the dedup theorems. -/
def c8kf1 : Keyframe :=
  { scene_id := 1, scene_index := 1, keyframe_index := 0, time := 0,
    frame_number := 0, quality_score := 0.5, image_hash := some "abc" }

/-- A later keyframe with the identical hash `"abc"`. -/
def c8kf2 : Keyframe :=
  { scene_id := 1, scene_index := 1, keyframe_index := 1, time := 2,
    frame_number := 50, quality_score := 0.4, image_hash := some "abc" }

/-- A keyframe with no hash. -/
def c8kf3 : Keyframe :=
  { scene_id := 2, scene_index := 2, keyframe_index := 0, time := 9,
    frame_number := 225, quality_score := 0.8, image_hash := none }

/-- A keyframe with an empty (falsy) hash. -/
def c8kf4 : Keyframe :=
  { scene_id := 2, scene_index := 2, keyframe_index := 1, time := 10,
    frame_number := 250, quality_score := 0.7, image_hash := some "" }

/-- A raw scene whose `duration` key is missing: scoring it raises `KeyError`,
so the per-scene `try` fires. -/
def c9bad : HighlightSelector.RawScene := { id := 1, start_time := some 0, end_time := some 5, duration := none }

/-- A well-formed raw scene. -/
def c9good : HighlightSelector.RawScene :=
  { id := 2, start_time := some 5, end_time := some 10, duration := some 5 }

/-- A concrete scene for the keyframe-extraction witness. -/
def c7scene : KFScene := { id := 1, start_time := 0, end_time := 10, duration := 10 }

/-- Trivial frame provider for the keyframe-extraction witness. -/
def c7read : ℤ → Option Unit := fun _ => some ()

/-- Constant quality evaluator for the keyframe-extraction witness. -/
def c7qual : Unit → ℚ := fun _ => 0.5

/-- Constant hasher for the keyframe-extraction witness. -/
def c7hash : Unit → String := fun _ => "h"

/-! ## Theorems -/

open HighlightSelector

/-- C4: for every scene with positive duration, the dialogue-only highlight
score equals `round(0.4 * min(len(dialogue)/duration/8*100, 100)
+ 0.3 * min(subtitle_count*20, 100) + 0.3 * duration_score, 2)`, and the
duration component takes the spec's boundary values at 10, 2, 20 and 30
seconds. -/
theorem dialogue_only_score_formula (scene : Scene) (h : 0 < scene.duration) :
    calculateHighlightScore scene =
      round2 (0.4 * min ((scene.dialogue.length : ℚ) / scene.duration / 8 * 100) 100
        + 0.3 * min ((scene.subtitle_count : ℚ) * 20) 100
        + 0.3 * durationScore scene.duration) ∧
    durationScore 10 = 100 ∧ durationScore 2 = 40 ∧
    durationScore 20 = 85 ∧ durationScore 30 = 55 := by
  refine ⟨?_, by with_unfolding_all decide, by with_unfolding_all decide,
    by with_unfolding_all decide, by with_unfolding_all decide⟩
  simp only [calculateHighlightScore, if_pos h]
  congr 1
  rcases Nat.eq_zero_or_pos scene.dialogue.length with hn | hn
  · rcases Nat.eq_zero_or_pos scene.subtitle_count with hc | hc
    · simp [hn, hc]
      ring
    · simp only [hn, if_neg (lt_irrefl 0), if_pos hc, Nat.cast_zero, zero_div]
      norm_num
      ring
  · rcases Nat.eq_zero_or_pos scene.subtitle_count with hc | hc
    · simp only [if_pos hn, hc, Nat.cast_zero, if_neg (lt_irrefl 0), zero_mul]
      norm_num
      ring
    · simp only [if_pos hn, if_pos hc]
      ring

/-- Witness for `dialogue_only_score_formula` at a concrete scene. -/
theorem dialogue_only_score_formula_witness :
    calculateHighlightScore c5scene1 =
      round2 (0.4 * min ((c5scene1.dialogue.length : ℚ) / c5scene1.duration / 8 * 100) 100
        + 0.3 * min ((c5scene1.subtitle_count : ℚ) * 20) 100
        + 0.3 * durationScore c5scene1.duration) ∧
    durationScore 10 = 100 ∧ durationScore 2 = 40 ∧
    durationScore 20 = 85 ∧ durationScore 30 = 55 :=
  dialogue_only_score_formula c5scene1 (by with_unfolding_all decide)

/-- C6: for every fused scene with positive duration and a present `visual`
record, the multimodal highlight score is the unrounded weighted sum with
dialogue divisor 10 (weight 0.3), motion (0.25), faces (0.2), OCR texts (0.15)
and a duration component with the dialogue-only breakpoints but falloff
coefficient 5 above 15 seconds (0.1). -/
theorem multimodal_score_formula (scene : FusedScene) (v : VisualInfo)
    (h : 0 < scene.duration) (hv : scene.visual = some v) :
    MultimodalFusion.calculateHighlightScore scene =
      0.3 * min ((scene.dialogue.length : ℚ) / scene.duration / 10 * 100) 100
      + 0.25 * (v.motion_score * 100)
      + 0.2 * min ((scene.faces.length : ℚ) * 30) 100
      + 0.15 * min ((scene.ocr_texts.length : ℚ) * 20) 100
      + 0.1 * MultimodalFusion.mmDurationScore scene.duration ∧
    (∀ d : ℚ, 5 ≤ d → d ≤ 15 → MultimodalFusion.mmDurationScore d = 100) ∧
    (∀ d : ℚ, d < 5 → MultimodalFusion.mmDurationScore d = d / 5 * 100) ∧
    (∀ d : ℚ, 15 < d → MultimodalFusion.mmDurationScore d = max 0 (100 - (d - 15) * 5)) := by
  refine ⟨?_, ?_, ?_, ?_⟩
  · simp only [MultimodalFusion.calculateHighlightScore, hv, Option.map_some', Option.getD_some]
    ring
  · intro d h5 h15
    simp [MultimodalFusion.mmDurationScore, h5, h15]
  · intro d hlt
    rw [MultimodalFusion.mmDurationScore, if_neg (fun hand => absurd hlt (not_lt.mpr hand.1)),
      if_pos hlt]
  · intro d hgt
    rw [MultimodalFusion.mmDurationScore, if_neg (fun hand => absurd hgt (not_lt.mpr hand.2)),
      if_neg (not_lt.mpr (le_trans (by norm_num) (le_of_lt hgt)))]

/-- Witness for `multimodal_score_formula` at a concrete fused scene. -/
theorem multimodal_score_formula_witness :
    MultimodalFusion.calculateHighlightScore c6scene =
      0.3 * min ((c6scene.dialogue.length : ℚ) / c6scene.duration / 10 * 100) 100
      + 0.25 * (c6visual.motion_score * 100)
      + 0.2 * min ((c6scene.faces.length : ℚ) * 30) 100
      + 0.15 * min ((c6scene.ocr_texts.length : ℚ) * 20) 100
      + 0.1 * MultimodalFusion.mmDurationScore c6scene.duration ∧
    (∀ d : ℚ, 5 ≤ d → d ≤ 15 → MultimodalFusion.mmDurationScore d = 100) ∧
    (∀ d : ℚ, d < 5 → MultimodalFusion.mmDurationScore d = d / 5 * 100) ∧
    (∀ d : ℚ, 15 < d → MultimodalFusion.mmDurationScore d = max 0 (100 - (d - 15) * 5)) :=
  multimodal_score_formula c6scene c6visual (by with_unfolding_all decide) rfl

/-- C3 counterexample: the subtitle `[-1,5)` with text `"a"` intersects the
scene `[0,10)` (its end lies in `(0,10]`), so the spec's permissive rule and
the dialogue-only path keep it, but `_get_dialogue_in_range` of the multimodal
fusion path drops it: that path requires simple containment. -/
theorem dialogue_rule_fusion_counterexample :
    MultimodalFusion.getDialogueInRange [c3sub] 0 10 = "" ∧
    specDialogue [c3sub] 0 10 = "a" ∧
    (addDialogueToScene c3scene [c3sub]).dialogue = "a" ∧
    MultimodalFusion.getDialogueInRange [c3sub] 0 10 ≠ specDialogue [c3sub] 0 10 := by
  with_unfolding_all decide

/-- C3 (amended): the dialogue-only path (`_add_dialogue_to_scene`) selects
exactly the subtitles satisfying the permissive intersection rule and joins
their texts space-separated in input order; the multimodal fusion path
(`_get_dialogue_in_range`) instead selects exactly the subtitles simply
contained in the range; for well-formed subtitles the permissive rule is
strictly more permissive than containment. -/
theorem dialogue_aggregation_rules (scene : Scene) (subtitles : List Subtitle)
    (s e : ℚ) (sub : Subtitle) (hse : sub.start ≤ sub.stop) :
    sceneSubtitles scene subtitles
      = subtitles.filter (fun x => decide (specOverlap scene.start_time scene.end_time x)) ∧
    (addDialogueToScene scene subtitles).dialogue
      = specDialogue subtitles scene.start_time scene.end_time ∧
    MultimodalFusion.getDialogueInRange subtitles s e
      = " ".intercalate ((subtitles.filter fun x => decide (containedIn s e x)).map Subtitle.text) ∧
    (containedIn s e sub → specOverlap s e sub) ∧
    specOverlap 0 10 c3sub ∧ ¬ containedIn 0 10 c3sub := by
  refine ⟨rfl, rfl, rfl, ?_, by with_unfolding_all decide, by with_unfolding_all decide⟩
  rintro ⟨h1, h2⟩
  rcases lt_or_le sub.start e with hlt | hge
  · exact Or.inl ⟨h1, hlt⟩
  rcases lt_or_le s sub.stop with hlt2 | hge2
  · exact Or.inr (Or.inl ⟨hlt2, h2⟩)
  · exact Or.inr (Or.inr ⟨le_trans hse hge2, le_trans hge hse⟩)

/-- Witness for `dialogue_aggregation_rules` at concrete inputs. -/
theorem dialogue_aggregation_rules_witness :
    sceneSubtitles c3scene [c3sub]
      = [c3sub].filter (fun x => decide (specOverlap c3scene.start_time c3scene.end_time x)) ∧
    (addDialogueToScene c3scene [c3sub]).dialogue
      = specDialogue [c3sub] c3scene.start_time c3scene.end_time ∧
    MultimodalFusion.getDialogueInRange [c3sub] 0 10
      = " ".intercalate (([c3sub].filter fun x => decide (containedIn 0 10 x)).map Subtitle.text) ∧
    (containedIn 0 10 c3sub → specOverlap 0 10 c3sub) ∧
    specOverlap 0 10 c3sub ∧ ¬ containedIn 0 10 c3sub :=
  dialogue_aggregation_rules c3scene [c3sub] 0 10 c3sub (by with_unfolding_all decide)

/-- C5 counterexample: on the end-to-end scenario's scene 1 (80 dialogue
characters over 8 seconds, 4 subtitles) the dialogue-only scorer returns 94 —
the dialogue density 10 chars/s caps the dialogue component at 100, giving
contribution 40, not 16 — so the claimed total 70 is wrong. -/
theorem end_to_end_score_counterexample :
    (addDialogueToScene c5scene1 c5subs).dialogue.length = 80 ∧
    (addDialogueToScene c5scene1 c5subs).subtitle_count = 4 ∧
    calculateHighlightScore (addDialogueToScene c5scene1 c5subs) = 94 ∧
    (94 : ℚ) ≠ 70 := by
  with_unfolding_all decide

/-- C5 (amended): in the end-to-end scenario the scorer assigns scene 1 the
total 94 (dialogue 40 + subtitles 24 + duration 30) and scene 2 the total 30;
the selector returns exactly scene 1 with `selected_id` 1, and the sum of the
selected durations is 8 ≤ 8. -/
theorem end_to_end_scenario :
    ((selectHighlights [c5scene1, c5scene2] c5subs 8).map
        (fun s => (s.id, s.highlight_score, s.selected_id, s.duration))) = [(1, 94, 1, 8)] ∧
    calculateHighlightScore (addDialogueToScene c5scene2 c5subs) = 30 ∧
    ((selectHighlights [c5scene1, c5scene2] c5subs 8).map Scene.duration).sum = 8 ∧
    ((8 : ℚ) ≤ 8) := by
  with_unfolding_all decide

namespace KeyframeExtractor

/-- `remove_duplicates` is the dedup loop: the empty-input guard returns the
input unchanged, which is also what the loop does. -/
theorem removeDuplicates_eq (kfs : List Keyframe) (t : ℚ) :
    removeDuplicates kfs t = removeDupAux [] kfs := by
  cases kfs <;> rfl

/-- The dedup loop only ever drops keyframes. -/
theorem removeDupAux_sublist (seen : List String) (kfs : List Keyframe) :
    List.Sublist (removeDupAux seen kfs) kfs := by
  induction kfs generalizing seen with
  | nil => simp [removeDupAux]
  | cons kf rest ih =>
    simp only [removeDupAux]
    cases kf.image_hash with
    | none => exact (ih seen).cons₂ kf
    | some h =>
      by_cases he : h = ""
      · simp only [if_pos he]
        exact (ih seen).cons₂ kf
      · by_cases hs : h ∈ seen
        · simp only [if_neg he, if_pos hs]
          exact (ih seen).cons kf
        · simp only [if_neg he, if_neg hs]
          exact (ih (h :: seen)).cons₂ kf
/-- The survivors carrying a given non-empty hash are exactly the first
occurrence of that hash among the keyframes whose hash is not yet seen. -/
theorem removeDupAux_filter_hash (h : String) (hne : h ≠ "") :
    ∀ (seen : List String) (kfs : List Keyframe),
      (removeDupAux seen kfs).filter (fun kf => decide (kf.image_hash = some h))
        = if h ∈ seen then []
          else (kfs.filter (fun kf => decide (kf.image_hash = some h))).take 1 := by
  intro seen kfs
  induction kfs generalizing seen with
  | nil => simp [removeDupAux]
  | cons kf rest ih =>
    simp only [removeDupAux]
    cases hkf : kf.image_hash with
    | none =>
      have hm : (decide (kf.image_hash = some h)) = false := by simp [hkf]
      simp only [List.filter_cons, hm, Bool.false_eq_true, if_false, ih seen]
    | some x =>
      by_cases he : x = ""
      · have hm : (decide (kf.image_hash = some h)) = false := by
          simp [hkf, he, Ne.symm hne]
        simp only [if_pos he, List.filter_cons, hm, Bool.false_eq_true, if_false, ih seen]
      · by_cases hs : x ∈ seen
        · simp only [if_neg he, if_pos hs, ih seen]
          by_cases hxh : x = h
          · subst hxh
            simp [hs]
          · have hm : (decide (kf.image_hash = some h)) = false := by simp [hkf, hxh]
            simp only [List.filter_cons, hm, Bool.false_eq_true, if_false]
        · simp only [if_neg he, if_neg hs]
          by_cases hxh : x = h
          · subst hxh
            have hm : (decide (kf.image_hash = some x)) = true := by simp [hkf]
            simp only [List.filter_cons, hm, if_true, ih (x :: seen),
              if_pos (List.mem_cons_self x seen), if_neg hs]
            simp
          · have hm : (decide (kf.image_hash = some h)) = false := by simp [hkf, hxh]
            have hmem : (h ∈ x :: seen) = (h ∈ seen) := by
              simp [List.mem_cons, Ne.symm hxh]
            simp only [List.filter_cons, hm, Bool.false_eq_true, if_false, ih (x :: seen), hmem]

/-- A survivor's non-empty hash was not in the seen-set the loop started from. -/
theorem removeDupAux_mem_not_seen (x : String) (hx : x ≠ "") :
    ∀ (seen : List String) (kfs : List Keyframe) (kf : Keyframe),
      kf ∈ removeDupAux seen kfs → kf.image_hash = some x → x ∉ seen := by
  intro seen kfs
  induction kfs generalizing seen with
  | nil => simp [removeDupAux]
  | cons kf rest ih =>
    intro k hk hkx
    cases hkf : kf.image_hash with
    | none =>
      simp only [removeDupAux, hkf] at hk
      rcases List.mem_cons.mp hk with heq | hmem
      · rw [heq, hkf] at hkx
        exact absurd hkx (by simp)
      · exact ih seen k hmem hkx
    | some y =>
      by_cases he : y = ""
      · simp only [removeDupAux, hkf, if_pos he] at hk
        rcases List.mem_cons.mp hk with heq | hmem
        · rw [heq, hkf] at hkx
          exact absurd hx (by simp at hkx; rw [← hkx, he]; simp)
        · exact ih seen k hmem hkx
      · by_cases hs : y ∈ seen
        · simp only [removeDupAux, hkf, if_neg he, if_pos hs] at hk
          exact ih seen k hk hkx
        · simp only [removeDupAux, hkf, if_neg he, if_neg hs] at hk
          rcases List.mem_cons.mp hk with heq | hmem
          · rw [heq, hkf] at hkx
            have hyx : y = x := by simpa using hkx
            rw [← hyx]
            exact hs
          · have hnot := ih (y :: seen) k hmem hkx
            exact fun hmem2 => hnot (List.mem_cons_of_mem y hmem2)

/-- No two survivors share a non-empty hash. -/
theorem removeDupAux_pairwise (seen : List String) (kfs : List Keyframe) :
    (removeDupAux seen kfs).Pairwise
      (fun a b => ∀ x, a.image_hash = some x → x ≠ "" → b.image_hash ≠ some x) := by
  induction kfs generalizing seen with
  | nil => simp [removeDupAux]
  | cons kf rest ih =>
    cases hkf : kf.image_hash with
    | none =>
      simp only [removeDupAux, hkf]
      refine List.Pairwise.cons ?_ (ih seen)
      intro b _ x hax
      rw [hkf] at hax
      exact absurd hax (by simp)
    | some y =>
      by_cases he : y = ""
      · simp only [removeDupAux, hkf, if_pos he]
        refine List.Pairwise.cons ?_ (ih seen)
        intro b _ x hax hxne
        rw [hkf] at hax
        have hyx : y = x := by simpa using hax
        exact absurd (hyx ▸ he).symm hxne.symm
      · by_cases hs : y ∈ seen
        · simp only [removeDupAux, hkf, if_neg he, if_pos hs]
          exact ih seen
        · simp only [removeDupAux, hkf, if_neg he, if_neg hs]
          refine List.Pairwise.cons ?_ (ih (y :: seen))
          intro b hb x hax hxne hbx
          rw [hkf] at hax
          have hxy : y = x := by simpa using hax
          subst hxy
          exact removeDupAux_mem_not_seen y he (y :: seen) rest b hb hbx
            (List.mem_cons_self y seen)

end KeyframeExtractor

namespace KeyframeExtractor

/-- Keyframes with a falsy hash pass through the dedup loop untouched. -/
theorem removeDupAux_filter_falsy (seen : List String) (kfs : List Keyframe) :
    (removeDupAux seen kfs).filter (fun kf => hashFalsy kf.image_hash)
      = kfs.filter (fun kf => hashFalsy kf.image_hash) := by
  induction kfs generalizing seen with
  | nil => simp [removeDupAux]
  | cons kf rest ih =>
    cases hkf : kf.image_hash with
    | none =>
      have hcond : hashFalsy kf.image_hash = true := by rw [hkf]; rfl
      simp only [removeDupAux, hkf]
      simp [List.filter_cons, hcond, ih seen]
    | some y =>
      by_cases he : y = ""
      · have hcond : hashFalsy kf.image_hash = true := by
          rw [hkf, he]
          rfl
        simp only [removeDupAux, hkf, if_pos he]
        simp [List.filter_cons, hcond, ih seen]
      · have hcond : hashFalsy kf.image_hash = false := by
          rw [hkf]
          simpa [hashFalsy] using he
        by_cases hs : y ∈ seen
        · simp only [removeDupAux, hkf, if_neg he, if_pos hs]
          simp [List.filter_cons, hcond, ih seen]
        · simp only [removeDupAux, hkf, if_neg he, if_neg hs]
          simp [List.filter_cons, hcond, ih (y :: seen)]

/-- Restricting the dedup loop to the keyframes with a non-falsy hash commutes
with running it: falsy-hash keyframes never influence which others survive. -/
theorem removeDupAux_filter_truthy (seen : List String) (kfs : List Keyframe) :
    (removeDupAux seen kfs).filter (fun kf => !hashFalsy kf.image_hash)
      = removeDupAux seen (kfs.filter (fun kf => !hashFalsy kf.image_hash)) := by
  induction kfs generalizing seen with
  | nil => simp [removeDupAux]
  | cons kf rest ih =>
    cases hkf : kf.image_hash with
    | none =>
      have hcond : hashFalsy kf.image_hash = true := by rw [hkf]; rfl
      simp only [removeDupAux, hkf]
      simp [List.filter_cons, hcond, ih seen]
    | some y =>
      by_cases he : y = ""
      · have hcond : hashFalsy kf.image_hash = true := by
          rw [hkf, he]
          rfl
        simp only [removeDupAux, hkf, if_pos he]
        simp [List.filter_cons, hcond, ih seen]
      · have hcond : hashFalsy kf.image_hash = false := by
          rw [hkf]
          simpa [hashFalsy] using he
        by_cases hs : y ∈ seen
        · rw [List.filter_cons]
          simp only [hcond, Bool.not_false, if_true]
          simp only [removeDupAux, hkf, if_neg he, if_pos hs]
          exact ih seen
        · rw [List.filter_cons]
          simp only [hcond, Bool.not_false, if_true]
          simp only [removeDupAux, hkf, if_neg he, if_neg hs]
          rw [List.filter_cons]
          simp only [hcond, Bool.not_false, if_true]
          exact congrArg (kf :: ·) (ih (y :: seen))

end KeyframeExtractor

/-- C8: `remove_duplicates` retains exactly the first occurrence of each exact
non-empty `image_hash` value and drops every later keyframe with an identical
hash; no two surviving hashed keyframes share a hash; the `similarity_threshold`
parameter is never applied, so the output is identical under any two values of
it. -/
theorem remove_duplicates_exact_hash (kfs : List Keyframe) (t1 t2 : ℚ) (h : String)
    (hne : h ≠ "") :
    KeyframeExtractor.removeDuplicates kfs t1 = KeyframeExtractor.removeDuplicates kfs t2 ∧
    List.Sublist (KeyframeExtractor.removeDuplicates kfs t1) kfs ∧
    (KeyframeExtractor.removeDuplicates kfs t1).filter
        (fun kf => decide (kf.image_hash = some h))
      = (kfs.filter (fun kf => decide (kf.image_hash = some h))).take 1 ∧
    (KeyframeExtractor.removeDuplicates kfs t1).Pairwise
      (fun a b => ∀ x, a.image_hash = some x → x ≠ "" → b.image_hash ≠ some x) := by
  rw [KeyframeExtractor.removeDuplicates_eq, KeyframeExtractor.removeDuplicates_eq]
  refine ⟨rfl, KeyframeExtractor.removeDupAux_sublist [] kfs, ?_,
    KeyframeExtractor.removeDupAux_pairwise [] kfs⟩
  rw [KeyframeExtractor.removeDupAux_filter_hash h hne [] kfs]
  simp

/-- Witness for `remove_duplicates_exact_hash`: of two keyframes with the
identical hash `"abc"` exactly the first survives. -/
theorem remove_duplicates_exact_hash_witness :
    KeyframeExtractor.removeDuplicates [c8kf1, c8kf2, c8kf3] 0.9
      = KeyframeExtractor.removeDuplicates [c8kf1, c8kf2, c8kf3] 0.1 ∧
    List.Sublist (KeyframeExtractor.removeDuplicates [c8kf1, c8kf2, c8kf3] 0.9)
      [c8kf1, c8kf2, c8kf3] ∧
    (KeyframeExtractor.removeDuplicates [c8kf1, c8kf2, c8kf3] 0.9).filter
        (fun kf => decide (kf.image_hash = some "abc"))
      = ([c8kf1, c8kf2, c8kf3].filter (fun kf => decide (kf.image_hash = some "abc"))).take 1 ∧
    (KeyframeExtractor.removeDuplicates [c8kf1, c8kf2, c8kf3] 0.9).Pairwise
      (fun a b => ∀ x, a.image_hash = some x → x ≠ "" → b.image_hash ≠ some x) :=
  remove_duplicates_exact_hash [c8kf1, c8kf2, c8kf3] 0.9 0.1 "abc" (by with_unfolding_all decide)

/-- C10: keyframes whose `image_hash` is missing or empty always survive
`remove_duplicates` — they are passed through unchanged — and they never
influence which hashed keyframes are dropped: only keyframes with a non-empty
hash participate in duplicate removal. -/
theorem remove_duplicates_hashless_kept (kfs : List Keyframe) (t : ℚ) :
    (KeyframeExtractor.removeDuplicates kfs t).filter
        (fun kf => KeyframeExtractor.hashFalsy kf.image_hash)
      = kfs.filter (fun kf => KeyframeExtractor.hashFalsy kf.image_hash) ∧
    (KeyframeExtractor.removeDuplicates kfs t).filter
        (fun kf => !KeyframeExtractor.hashFalsy kf.image_hash)
      = KeyframeExtractor.removeDuplicates
          (kfs.filter (fun kf => !KeyframeExtractor.hashFalsy kf.image_hash)) t ∧
    ∀ kf ∈ kfs, KeyframeExtractor.hashFalsy kf.image_hash = true →
      kf ∈ KeyframeExtractor.removeDuplicates kfs t := by
  simp only [KeyframeExtractor.removeDuplicates_eq]
  refine ⟨KeyframeExtractor.removeDupAux_filter_falsy [] kfs,
    KeyframeExtractor.removeDupAux_filter_truthy [] kfs, ?_⟩
  intro kf hmem hfal
  have h1 : kf ∈ kfs.filter (fun kf => KeyframeExtractor.hashFalsy kf.image_hash) :=
    List.mem_filter.mpr ⟨hmem, hfal⟩
  rw [← KeyframeExtractor.removeDupAux_filter_falsy [] kfs] at h1
  exact List.mem_of_mem_filter h1

/-- Witness for `remove_duplicates_hashless_kept`: the hashless and
empty-hash keyframes all survive, in multiplicity. -/
theorem remove_duplicates_hashless_kept_witness :
    (KeyframeExtractor.removeDuplicates [c8kf1, c8kf4, c8kf2, c8kf3, c8kf4] 0.9).filter
        (fun kf => KeyframeExtractor.hashFalsy kf.image_hash)
      = [c8kf1, c8kf4, c8kf2, c8kf3, c8kf4].filter
          (fun kf => KeyframeExtractor.hashFalsy kf.image_hash) ∧
    (KeyframeExtractor.removeDuplicates [c8kf1, c8kf4, c8kf2, c8kf3, c8kf4] 0.9).filter
        (fun kf => !KeyframeExtractor.hashFalsy kf.image_hash)
      = KeyframeExtractor.removeDuplicates
          ([c8kf1, c8kf4, c8kf2, c8kf3, c8kf4].filter
            (fun kf => !KeyframeExtractor.hashFalsy kf.image_hash)) 0.9 ∧
    ∀ kf ∈ [c8kf1, c8kf4, c8kf2, c8kf3, c8kf4],
      KeyframeExtractor.hashFalsy kf.image_hash = true →
        kf ∈ KeyframeExtractor.removeDuplicates [c8kf1, c8kf4, c8kf2, c8kf3, c8kf4] 0.9 :=
  remove_duplicates_hashless_kept [c8kf1, c8kf4, c8kf2, c8kf3, c8kf4] 0.9

namespace HighlightSelector

/-- Scenes whose enrichment raises contribute nothing to the enrichment loop:
the loop behaves as if they had been removed from the input. -/
theorem enrichLoop_filter (subtitles : List Subtitle) (scenes : List RawScene) :
    enrichLoop subtitles scenes = enrichLoop subtitles (scenes.filter (enrichOk subtitles)) := by
  induction scenes with
  | nil => rfl
  | cons s rest ih =>
    rw [List.filter_cons]
    cases he : enrichRaw subtitles s with
    | ok v =>
      have hok : enrichOk subtitles s = true := by simp [enrichOk, he, Except.toOption]
      simp only [hok, if_true, enrichLoop, he, ih]
    | error e =>
      have hok : enrichOk subtitles s = false := by simp [enrichOk, he, Except.toOption]
      simp only [hok, Bool.false_eq_true, if_false, enrichLoop, he, ih]

end HighlightSelector

/-- C9 counterexample: with a scene whose `duration` key is missing followed by
a well-formed scene, `select_highlights` does not abort: it drops the failing
scene and still returns the well-formed one.  The entry point takes no strategy
parameter, so no caller can obtain abort-whole-pipeline behaviour. -/
theorem aggregation_failure_no_abort :
    (selectHighlightsRaw [c9bad, c9good] [] 600).map Scene.id = [2] ∧
    selectHighlightsRaw [c9bad, c9good] [] 600 ≠ [] := by
  with_unfolding_all decide

/-- C9 (amended): the only failure policy implemented at the selection entry
point is skip-and-continue — the pipeline output is identical to running it on
the input with the failing scenes removed, for every input. -/
theorem select_raw_skip_and_continue (scenes : List RawScene) (subtitles : List Subtitle)
    (target : ℚ) :
    selectHighlightsRaw scenes subtitles target
      = selectHighlightsRaw (scenes.filter (enrichOk subtitles)) subtitles target := by
  cases scenes with
  | nil => rfl
  | cons s rest =>
    cases hfe : (s :: rest).filter (enrichOk subtitles) with
    | nil =>
      have hE0 : enrichLoop subtitles (s :: rest) = [] := by
        rw [enrichLoop_filter, hfe]
        rfl
      simp [selectHighlightsRaw, hfe, hE0]
    | cons t ts =>
      simp only [selectHighlightsRaw, List.isEmpty_cons, Bool.false_eq_true, if_false]
      rw [← hfe, ← enrichLoop_filter]

namespace HighlightSelector

/-- Unfolding `select_highlights` to its pipeline of enrichment, descending
score sort, greedy accumulation, chronological sort and id assignment. -/
theorem selectHighlights_eq (scenes : List Scene) (subtitles : List Subtitle) (target : ℚ) :
    selectHighlights scenes subtitles target
      = assignIds 1 (List.insertionSort startLE
          (greedy target (List.insertionSort scoreGE (scenes.map (enrichScene subtitles))) 0)) := by
  cases scenes with
  | nil => rfl
  | cons s rest => rfl

/-- Enrichment does not change a scene's duration. -/
theorem enrichScene_duration (subtitles : List Subtitle) (s : Scene) :
    (enrichScene subtitles s).duration = s.duration := rfl

/-- Enrichment does not change a scene's start time. -/
theorem enrichScene_start_time (subtitles : List Subtitle) (s : Scene) :
    (enrichScene subtitles s).start_time = s.start_time := rfl

/-- Id assignment does not change the durations. -/
theorem assignIds_map_duration : ∀ (i : ℕ) (l : List Scene),
    (assignIds i l).map Scene.duration = l.map Scene.duration
  | _, [] => rfl
  | i, s :: rest => by simp [assignIds, assignIds_map_duration (i + 1) rest]

/-- Id assignment does not change the start times. -/
theorem assignIds_map_start_time : ∀ (i : ℕ) (l : List Scene),
    (assignIds i l).map Scene.start_time = l.map Scene.start_time
  | _, [] => rfl
  | i, s :: rest => by simp [assignIds, assignIds_map_start_time (i + 1) rest]

/-- Id assignment writes the consecutive ids `i, i+1, ...`. -/
theorem assignIds_map_selected_id : ∀ (i : ℕ) (l : List Scene),
    (assignIds i l).map Scene.selected_id = List.range' i l.length
  | _, [] => rfl
  | i, s :: rest => by
    simp [assignIds, assignIds_map_selected_id (i + 1) rest, List.range'_succ]

/-- The greedy loop only ever takes scenes from its input. -/
theorem greedy_sublist (target : ℚ) :
    ∀ (l : List Scene) (total : ℚ), List.Sublist (greedy target l total) l := by
  intro l
  induction l with
  | nil => intro total; exact List.Sublist.refl []
  | cons scene rest ih =>
    intro total
    rw [greedy]
    by_cases hfit : total + scene.duration ≤ target
    · rw [if_pos hfit]
      by_cases hstop : total + scene.duration ≥ target * 0.95
      · rw [if_pos hstop]
        exact (List.nil_sublist rest).cons₂ scene
      · rw [if_neg hstop]
        exact (ih (total + scene.duration)).cons₂ scene
    · rw [if_neg hfit]
      by_cases hstop : total ≥ target * 0.95
      · rw [if_pos hstop]
        exact List.nil_sublist _
      · rw [if_neg hstop]
        exact (ih total).cons scene

/-- The greedy loop respects the budget: starting from a running total, the
total of what it accepts never exceeds `max total target`. -/
theorem greedy_budget (target : ℚ) :
    ∀ (l : List Scene) (total : ℚ),
      total + ((greedy target l total).map Scene.duration).sum ≤ max total target := by
  intro l
  induction l with
  | nil =>
    intro total
    simpa [greedy] using le_max_left total target
  | cons scene rest ih =>
    intro total
    rw [greedy]
    by_cases hfit : total + scene.duration ≤ target
    · rw [if_pos hfit]
      by_cases hstop : total + scene.duration ≥ target * 0.95
      · rw [if_pos hstop]
        simp only [List.map_cons, List.map_nil, List.sum_cons, List.sum_nil]
        exact le_max_of_le_right (by linarith)
      · rw [if_neg hstop]
        have h2 := ih (total + scene.duration)
        rw [max_eq_right hfit] at h2
        simp only [List.map_cons, List.sum_cons]
        exact le_max_of_le_right (by linarith)
    · rw [if_neg hfit]
      by_cases hstop : total ≥ target * 0.95
      · rw [if_pos hstop]
        simpa using le_max_left total target
      · rw [if_neg hstop]
        exact ih total

/-- Every scene the greedy loop accepts fits the budget on its own: with a
nonnegative running total and nonnegative durations, an accepted scene's
duration is at most `target`. -/
theorem greedy_mem_fits (target : ℚ) :
    ∀ (l : List Scene) (total : ℚ), 0 ≤ total → (∀ s ∈ l, 0 ≤ s.duration) →
      ∀ s ∈ greedy target l total, s.duration ≤ target := by
  intro l
  induction l with
  | nil =>
    intro total _ _ s hs
    simp [greedy] at hs
  | cons scene rest ih =>
    intro total htot hd s hs
    have hd0 : 0 ≤ scene.duration := hd scene (List.mem_cons_self scene rest)
    have hdrest : ∀ t ∈ rest, 0 ≤ t.duration :=
      fun t ht => hd t (List.mem_cons_of_mem scene ht)
    rw [greedy] at hs
    by_cases hfit : total + scene.duration ≤ target
    · rw [if_pos hfit] at hs
      by_cases hstop : total + scene.duration ≥ target * 0.95
      · rw [if_pos hstop] at hs
        have heq : s = scene := by simpa using hs
        rw [heq]
        linarith
      · rw [if_neg hstop] at hs
        rcases List.mem_cons.mp hs with heq | hmem
        · rw [heq]
          linarith
        · exact ih (total + scene.duration) (by linarith) hdrest s hmem
    · rw [if_neg hfit] at hs
      by_cases hstop : total ≥ target * 0.95
      · rw [if_pos hstop] at hs
        simp at hs
      · rw [if_neg hstop] at hs
        exact ih total htot hdrest s hs

/-- When no scene fits the budget at all, the greedy loop accepts nothing. -/
theorem greedy_none_fit (target : ℚ) :
    ∀ l : List Scene, (∀ s ∈ l, target < s.duration) → greedy target l 0 = [] := by
  intro l
  induction l with
  | nil => intro _; rfl
  | cons scene rest ih =>
    intro h
    have h0 : target < scene.duration := h scene (List.mem_cons_self scene rest)
    rw [greedy, if_neg (by intro hc; linarith)]
    by_cases hstop : (0 : ℚ) ≥ target * 0.95
    · rw [if_pos hstop]
    · rw [if_neg hstop]
      exact ih (fun s hs => h s (List.mem_cons_of_mem scene hs))

end HighlightSelector

/-- C1: the budget invariant of `select_highlights`: for a nonnegative budget
and nonnegative scene durations, the selected durations sum to at most
`target_duration`; no selected scene alone exceeds the budget (no scene is
truncated); when no scene fits, or the input is empty, the result is the empty
list (the function is total, so no exception is raised). -/
theorem select_highlights_budget (scenes : List Scene) (subtitles : List Subtitle)
    (target : ℚ) (htarget : 0 ≤ target) (hdur : ∀ s ∈ scenes, 0 ≤ s.duration) :
    ((selectHighlights scenes subtitles target).map Scene.duration).sum ≤ target ∧
    (∀ s ∈ selectHighlights scenes subtitles target, s.duration ≤ target) ∧
    ((∀ s ∈ scenes, target < s.duration) → selectHighlights scenes subtitles target = []) ∧
    (scenes = [] → selectHighlights scenes subtitles target = []) := by
  rw [selectHighlights_eq]
  have hd_sorted : ∀ s ∈ List.insertionSort scoreGE (scenes.map (enrichScene subtitles)),
      0 ≤ s.duration := by
    intro s hs
    have hmem : s ∈ scenes.map (enrichScene subtitles) :=
      (List.perm_insertionSort scoreGE _).mem_iff.mp hs
    rcases List.mem_map.mp hmem with ⟨s0, hs0, rfl⟩
    rw [enrichScene_duration]
    exact hdur s0 hs0
  refine ⟨?_, ?_, ?_, ?_⟩
  · rw [assignIds_map_duration]
    have hperm := (List.perm_insertionSort startLE
      (greedy target (List.insertionSort scoreGE (scenes.map (enrichScene subtitles))) 0)).map
        Scene.duration
    rw [hperm.sum_eq]
    have hbud := greedy_budget target
      (List.insertionSort scoreGE (scenes.map (enrichScene subtitles))) 0
    rw [max_eq_right htarget] at hbud
    linarith
  · intro s hs
    have hdmem : s.duration
        ∈ (assignIds 1 (List.insertionSort startLE
            (greedy target (List.insertionSort scoreGE (scenes.map (enrichScene subtitles))) 0))).map
              Scene.duration :=
      List.mem_map_of_mem Scene.duration hs
    rw [assignIds_map_duration] at hdmem
    have hmem2 : s.duration
        ∈ (greedy target (List.insertionSort scoreGE (scenes.map (enrichScene subtitles))) 0).map
            Scene.duration :=
      ((List.perm_insertionSort startLE _).map Scene.duration).mem_iff.mp hdmem
    rcases List.mem_map.mp hmem2 with ⟨t, ht, hdt⟩
    rw [← hdt]
    exact greedy_mem_fits target _ 0 le_rfl hd_sorted t ht
  · intro hnone
    have hnone_sorted : ∀ s ∈ List.insertionSort scoreGE (scenes.map (enrichScene subtitles)),
        target < s.duration := by
      intro s hs
      have hmem : s ∈ scenes.map (enrichScene subtitles) :=
        (List.perm_insertionSort scoreGE _).mem_iff.mp hs
      rcases List.mem_map.mp hmem with ⟨s0, hs0, rfl⟩
      rw [enrichScene_duration]
      exact hnone s0 hs0
    rw [greedy_none_fit target _ hnone_sorted]
    rfl
  · intro h0
    subst h0
    rfl

/-- Witness for `select_highlights_budget` at a concrete input: a single
8-second scene against a 5-second budget is never selected. -/
theorem select_highlights_budget_witness :
    ((selectHighlights [c5scene1] [] 5).map Scene.duration).sum ≤ 5 ∧
    (∀ s ∈ selectHighlights [c5scene1] [] 5, s.duration ≤ 5) ∧
    ((∀ s ∈ [c5scene1], (5 : ℚ) < s.duration) → selectHighlights [c5scene1] [] 5 = []) ∧
    (([c5scene1] : List Scene) = [] → selectHighlights [c5scene1] [] 5 = []) :=
  select_highlights_budget [c5scene1] [] 5 (by norm_num)
    (by intro s hs; simp at hs; rw [hs]; with_unfolding_all decide)

/-- Inserting into a list moves the element past exactly the elements with a
strictly greater key, so the sublist of elements with any fixed key is
preserved: the heart of the stability of the descending sort. -/
theorem orderedInsert_filter_key {α : Type} (r : α → α → Prop) [DecidableRel r]
    (key : α → ℚ) (hr : ∀ a b, r a b ↔ key b ≤ key a) (c : ℚ) (a : α) :
    ∀ l : List α, (List.orderedInsert r a l).filter (fun x => decide (key x = c))
      = if key a = c then a :: l.filter (fun x => decide (key x = c))
        else l.filter (fun x => decide (key x = c)) := by
  intro l
  induction l with
  | nil =>
    by_cases hac : key a = c
    · simp [List.orderedInsert, List.filter_cons, hac]
    · simp [List.orderedInsert, List.filter_cons, hac]
  | cons b t ih =>
    rw [List.orderedInsert]
    by_cases hrab : r a b
    · rw [if_pos hrab]
      by_cases hac : key a = c
      · simp [List.filter_cons, hac]
      · simp [List.filter_cons, hac]
    · rw [if_neg hrab]
      have hba : key a < key b := not_le.mp (fun hc => hrab ((hr a b).mpr hc))
      by_cases hbc : key b = c
      · have hac : ¬ key a = c := fun hc => absurd (hc.trans hbc.symm ▸ hba) (lt_irrefl _)
        rw [if_neg hac]
        have hb : (decide (key b = c)) = true := by simp [hbc]
        simp only [List.filter_cons, hb, if_true, ih, if_neg hac]
      · have hb : (decide (key b = c)) = false := by simp [hbc]
        by_cases hac : key a = c
        · rw [if_pos hac]
          simp only [List.filter_cons, hb, Bool.false_eq_true, if_false, ih, if_pos hac]
        · rw [if_neg hac]
          simp only [List.filter_cons, hb, Bool.false_eq_true, if_false, ih, if_neg hac]

/-- Stability of the insertion sort used to embed Python's stable `list.sort`:
for every key value, the elements carrying that key appear in the output in
their input order. -/
theorem insertionSort_filter_key {α : Type} (r : α → α → Prop) [DecidableRel r]
    (key : α → ℚ) (hr : ∀ a b, r a b ↔ key b ≤ key a) (c : ℚ) :
    ∀ l : List α, (List.insertionSort r l).filter (fun x => decide (key x = c))
      = l.filter (fun x => decide (key x = c)) := by
  intro l
  induction l with
  | nil => rfl
  | cons x l ih =>
    rw [List.insertionSort, orderedInsert_filter_key r key hr c x (List.insertionSort r l)]
    by_cases hxc : key x = c
    · rw [if_pos hxc, ih]
      simp [List.filter_cons, hxc]
    · rw [if_neg hxc, ih]
      simp [List.filter_cons, hxc]

namespace HighlightSelector

/-- Non-overlapping scenes with positive extents have strictly increasing
start times. -/
theorem chain'_startLT_of_nonoverlap :
    ∀ scenes : List Scene, (∀ s ∈ scenes, s.start_time < s.end_time) →
      scenes.Chain' (fun a b => a.end_time ≤ b.start_time) →
      scenes.Chain' startLT := by
  intro scenes
  induction scenes with
  | nil => intro _ _; exact List.chain'_nil
  | cons a rest ih =>
    intro hpos hch
    cases rest with
    | nil => exact List.chain'_singleton a
    | cons b t =>
      rw [List.chain'_cons] at hch ⊢
      refine ⟨lt_of_lt_of_le (hpos a (List.mem_cons_self a _)) hch.1,
        ih (fun s hs => hpos s (List.mem_cons_of_mem a hs)) hch.2⟩

/-- Id assignment preserves the length. -/
theorem assignIds_length : ∀ (i : ℕ) (l : List Scene), (assignIds i l).length = l.length
  | _, [] => rfl
  | i, s :: rest => by simp [assignIds, assignIds_length (i + 1) rest]

end HighlightSelector

namespace HighlightSelector

/-- The assigned `selected_id` values are always `1..N` in output order. -/
theorem select_ids (scenes : List Scene) (subtitles : List Subtitle) (target : ℚ) :
    (selectHighlights scenes subtitles target).map Scene.selected_id
      = List.range' 1 (selectHighlights scenes subtitles target).length := by
  rw [selectHighlights_eq, assignIds_map_selected_id, assignIds_length]

/-- With pairwise-distinct input start times, the output of the selector is
strictly increasing in `start_time`. -/
theorem select_output_strict_chrono (scenes : List Scene) (subtitles : List Subtitle)
    (target : ℚ) (hnodup : (scenes.map Scene.start_time).Nodup) :
    ((selectHighlights scenes subtitles target).map Scene.start_time).Pairwise (· < ·) := by
  rw [selectHighlights_eq, assignIds_map_start_time]
  have henr_starts : (scenes.map (enrichScene subtitles)).map Scene.start_time
      = scenes.map Scene.start_time := by
    rw [List.map_map]
    exact List.map_congr_left (fun s _ => rfl)
  have hsorted_nodup : ((List.insertionSort scoreGE (scenes.map (enrichScene subtitles))).map
      Scene.start_time).Nodup := by
    rw [((List.perm_insertionSort scoreGE _).map Scene.start_time).nodup_iff, henr_starts]
    exact hnodup
  have hsel_nodup : ((greedy target (List.insertionSort scoreGE
      (scenes.map (enrichScene subtitles))) 0).map Scene.start_time).Nodup :=
    hsorted_nodup.sublist ((greedy_sublist target _ 0).map Scene.start_time)
  have hchrono_nodup : ((List.insertionSort startLE (greedy target (List.insertionSort scoreGE
      (scenes.map (enrichScene subtitles))) 0)).map Scene.start_time).Nodup := by
    rw [((List.perm_insertionSort startLE _).map Scene.start_time).nodup_iff]
    exact hsel_nodup
  have hchrono_le : ((List.insertionSort startLE (greedy target (List.insertionSort scoreGE
      (scenes.map (enrichScene subtitles))) 0)).map Scene.start_time).Pairwise (· ≤ ·) :=
    List.pairwise_map.mpr ((List.sorted_insertionSort startLE _).imp (fun h => h))
  exact (hchrono_le.and hchrono_nodup).imp (fun h => lt_of_le_of_ne h.1 h.2)

end HighlightSelector

/-- C2: `select_highlights` sorts the enriched scenes descending by
`highlight_score` with a stable sort (for every score value the tied scenes
keep their input order, and the sorted list is descending), greedily accepts a
scene exactly when it fits the remaining budget, continues scanning past a
scene that would overflow, stops as soon as the running total reaches
`target_duration * 0.95`, and returns the accepted subset sorted ascending by
`start_time` with `selected_id = 1..N` in that order; for non-overlapping
input scenes sorted by `start_time` with positive extents the output is
strictly increasing in `start_time`. -/
theorem select_highlights_chronological (scenes : List Scene) (subtitles : List Subtitle)
    (target : ℚ)
    (hpos : ∀ s ∈ scenes, 0 < s.duration)
    (hde : ∀ s ∈ scenes, s.duration = s.end_time - s.start_time)
    (hno : scenes.Chain' (fun a b => a.end_time ≤ b.start_time)) :
    ((selectHighlights scenes subtitles target).map Scene.start_time).Chain' (· < ·) ∧
    ((selectHighlights scenes subtitles target).map Scene.selected_id
      = List.range' 1 (selectHighlights scenes subtitles target).length) ∧
    (∀ c : ℚ, (List.insertionSort scoreGE (scenes.map (enrichScene subtitles))).filter
          (fun s => decide (s.highlight_score = c))
        = (scenes.map (enrichScene subtitles)).filter
            (fun s => decide (s.highlight_score = c))) ∧
    (List.insertionSort scoreGE (scenes.map (enrichScene subtitles))).Sorted scoreGE ∧
    (∀ (scene : Scene) (rest : List Scene) (total : ℚ),
      total + scene.duration ≤ target → total + scene.duration < target * 0.95 →
        greedy target (scene :: rest) total
          = scene :: greedy target rest (total + scene.duration)) ∧
    (∀ (scene : Scene) (rest : List Scene) (total : ℚ),
      total + scene.duration ≤ target → target * 0.95 ≤ total + scene.duration →
        greedy target (scene :: rest) total = [scene]) ∧
    (∀ (scene : Scene) (rest : List Scene) (total : ℚ),
      target < total + scene.duration → total < target * 0.95 →
        greedy target (scene :: rest) total = greedy target rest total) ∧
    (∀ (scene : Scene) (rest : List Scene) (total : ℚ),
      target < total + scene.duration → target * 0.95 ≤ total →
        greedy target (scene :: rest) total = []) := by
  have hse : ∀ s ∈ scenes, s.start_time < s.end_time := by
    intro s hs
    have h1 := hpos s hs
    have h2 := hde s hs
    rw [h2] at h1
    linarith
  have hnodup : (scenes.map Scene.start_time).Nodup := by
    have hpw0 : scenes.Pairwise startLT :=
      List.chain'_iff_pairwise.mp (chain'_startLT_of_nonoverlap scenes hse hno)
    have hpw : (scenes.map Scene.start_time).Pairwise (· < ·) := List.pairwise_map.mpr hpw0
    exact hpw.imp ne_of_lt
  refine ⟨(select_output_strict_chrono scenes subtitles target hnodup).chain',
    select_ids scenes subtitles target,
    fun c => insertionSort_filter_key scoreGE (fun s => s.highlight_score)
      (fun a b => Iff.rfl) c (scenes.map (enrichScene subtitles)),
    List.sorted_insertionSort scoreGE (scenes.map (enrichScene subtitles)),
    ?_, ?_, ?_, ?_⟩
  · intro scene rest total hfit hlt
    rw [greedy, if_pos hfit, if_neg (not_le.mpr hlt)]
  · intro scene rest total hfit hstop
    rw [greedy, if_pos hfit, if_pos hstop]
  · intro scene rest total hover hlt
    rw [greedy, if_neg (not_le.mpr hover), if_neg (not_le.mpr hlt)]
  · intro scene rest total hover hstop
    rw [greedy, if_neg (not_le.mpr hover), if_pos hstop]

/-- Witness for `select_highlights_chronological` on the two-scene scenario. -/
theorem select_highlights_chronological_witness :
    ((selectHighlights [c5scene1, c5scene2] c5subs 8).map Scene.start_time).Chain' (· < ·) ∧
    ((selectHighlights [c5scene1, c5scene2] c5subs 8).map Scene.selected_id
      = List.range' 1 (selectHighlights [c5scene1, c5scene2] c5subs 8).length) ∧
    (∀ c : ℚ,
      (List.insertionSort scoreGE ([c5scene1, c5scene2].map (enrichScene c5subs))).filter
          (fun s => decide (s.highlight_score = c))
        = ([c5scene1, c5scene2].map (enrichScene c5subs)).filter
            (fun s => decide (s.highlight_score = c))) ∧
    (List.insertionSort scoreGE ([c5scene1, c5scene2].map (enrichScene c5subs))).Sorted scoreGE ∧
    (∀ (scene : Scene) (rest : List Scene) (total : ℚ),
      total + scene.duration ≤ 8 → total + scene.duration < 8 * 0.95 →
        greedy 8 (scene :: rest) total
          = scene :: greedy 8 rest (total + scene.duration)) ∧
    (∀ (scene : Scene) (rest : List Scene) (total : ℚ),
      total + scene.duration ≤ 8 → 8 * 0.95 ≤ total + scene.duration →
        greedy 8 (scene :: rest) total = [scene]) ∧
    (∀ (scene : Scene) (rest : List Scene) (total : ℚ),
      8 < total + scene.duration → total < 8 * 0.95 →
        greedy 8 (scene :: rest) total = greedy 8 rest total) ∧
    (∀ (scene : Scene) (rest : List Scene) (total : ℚ),
      8 < total + scene.duration → 8 * 0.95 ≤ total →
        greedy 8 (scene :: rest) total = []) :=
  select_highlights_chronological [c5scene1, c5scene2] c5subs 8
    (by intro s hs; simp at hs; rcases hs with h | h <;> rw [h] <;> with_unfolding_all decide)
    (by intro s hs; simp at hs; rcases hs with h | h <;> rw [h] <;> with_unfolding_all decide)
    (by
      rw [List.chain'_cons]
      exact ⟨by with_unfolding_all decide, List.chain'_singleton _⟩)

open KeyframeExtractor

/-- Subtracting one from a positive rational lowers its ceiling by one. -/
theorem natCeil_sub_one (q : ℚ) (hq : 0 < q) : ⌈q - 1⌉₊ = ⌈q⌉₊ - 1 := by
  have hc1 : 0 < ⌈q⌉₊ := Nat.lt_ceil.mpr (by simpa using hq)
  refine le_antisymm ?_ ?_
  · apply Nat.ceil_le.mpr
    rw [Nat.cast_sub hc1]
    have hle := Nat.le_ceil q
    push_cast
    linarith
  · have h2 : ⌈q⌉₊ ≤ ⌈q - 1⌉₊ + 1 := by
      apply Nat.ceil_le.mpr
      have hle := Nat.le_ceil (q - 1)
      push_cast
      linarith
    omega

namespace KeyframeExtractor

/-- Every mode yields a positive sampling interval. -/
theorem intervalFor_pos (mode : String) : 0 < intervalFor mode := by
  unfold intervalFor
  split_ifs <;> norm_num

/-- Closed form of the sampling `while` loop: starting from offset `t` with
fuel `n`, it emits `start + t + k * i` for `k` below both the remaining fuel
and the number of steps of size `i` fitting strictly inside `d - t`. -/
theorem sampleLoop_closed (start d i : ℚ) (hi : 0 < i) :
    ∀ (n : ℕ) (t : ℚ), sampleLoop start d i t n
      = (List.range (min n ⌈(d - t) / i⌉₊)).map (fun k : ℕ => start + t + (k : ℚ) * i) := by
  intro n
  induction n with
  | zero => intro t; simp [sampleLoop]
  | succ n ih =>
    intro t
    rw [sampleLoop]
    by_cases ht : t < d
    · rw [if_pos ht]
      have hq : 0 < (d - t) / i := div_pos (by linarith) hi
      have hc1 : 0 < ⌈(d - t) / i⌉₊ := Nat.lt_ceil.mpr (by simpa using hq)
      have hsub : ((d - (t + i)) / i) = (d - t) / i - 1 := by
        field_simp
        ring
      have hceil : ⌈(d - (t + i)) / i⌉₊ = ⌈(d - t) / i⌉₊ - 1 := by
        rw [hsub]
        exact natCeil_sub_one _ hq
      have hmin : min (n + 1) ⌈(d - t) / i⌉₊ = min n (⌈(d - t) / i⌉₊ - 1) + 1 := by omega
      rw [ih (t + i), hceil, hmin, List.range_succ_eq_map]
      simp only [List.map_cons, List.map_map]
      refine List.cons_eq_cons.mpr ⟨by push_cast; ring, ?_⟩
      exact List.map_congr_left (fun k _ => by
        show start + (t + i) + (k : ℚ) * i = start + t + ((k + 1 : ℕ) : ℚ) * i
        push_cast
        ring)
    · rw [if_neg ht]
      have h0 : (d - t) / i ≤ 0 :=
        div_nonpos_iff.mpr (Or.inr ⟨by linarith, le_of_lt hi⟩)
      have hceil0 : ⌈(d - t) / i⌉₊ = 0 := Nat.ceil_eq_zero.mpr h0
      simp [hceil0]

/-- The result-building loop preserves the length. -/
theorem buildKeyframes_length {Frame : Type} (hashImage : Frame → String) (sid sidx : ℕ) :
    ∀ (i : ℕ) (cs : List (Candidate Frame)),
      (buildKeyframes hashImage sid sidx i cs).length = cs.length
  | _, [] => rfl
  | i, c :: rest => by
    simp [buildKeyframes, buildKeyframes_length hashImage sid sidx (i + 1) rest]

/-- The result-building loop copies each candidate's time. -/
theorem buildKeyframes_map_time {Frame : Type} (hashImage : Frame → String) (sid sidx : ℕ) :
    ∀ (i : ℕ) (cs : List (Candidate Frame)),
      (buildKeyframes hashImage sid sidx i cs).map Keyframe.time = cs.map Candidate.time
  | _, [] => rfl
  | i, c :: rest => by
    simp [buildKeyframes, buildKeyframes_map_time hashImage sid sidx (i + 1) rest]

/-- The result-building loop copies each candidate's time and quality. -/
theorem buildKeyframes_map_tq {Frame : Type} (hashImage : Frame → String) (sid sidx : ℕ) :
    ∀ (i : ℕ) (cs : List (Candidate Frame)),
      (buildKeyframes hashImage sid sidx i cs).map (fun kf => (kf.time, kf.quality_score))
        = cs.map (fun c => (c.time, c.quality_score))
  | _, [] => rfl
  | i, c :: rest => by
    simp [buildKeyframes, buildKeyframes_map_tq hashImage sid sidx (i + 1) rest]

end KeyframeExtractor

namespace KeyframeExtractor

/-- The per-scene result never exceeds `max_frames`. -/
theorem extractFromScene_length_le {Frame : Type} (readFrame : ℤ → Option Frame)
    (evalQuality : Frame → ℚ) (hashImage : Frame → String) (mode : String)
    (max_frames : ℕ) (fps : ℚ) (scene : KFScene) :
    (extractFromScene readFrame evalQuality hashImage mode max_frames fps scene).length
      ≤ max_frames := by
  simp only [extractFromScene]
  rw [buildKeyframes_length, (List.perm_insertionSort timeLE _).length_eq, List.length_take]
  exact min_le_left _ _

/-- The per-scene result is in chronological order. -/
theorem extractFromScene_time_sorted {Frame : Type} (readFrame : ℤ → Option Frame)
    (evalQuality : Frame → ℚ) (hashImage : Frame → String) (mode : String)
    (max_frames : ℕ) (fps : ℚ) (scene : KFScene) :
    ((extractFromScene readFrame evalQuality hashImage mode max_frames fps scene).map
        Keyframe.time).Chain' (· ≤ ·) := by
  simp only [extractFromScene]
  rw [buildKeyframes_map_time]
  refine List.Pairwise.chain' (List.pairwise_map.mpr ?_)
  exact List.sorted_insertionSort timeLE _

end KeyframeExtractor

/-- C7: per-scene keyframe extraction.  The mode determines the interval
(`low` 3s, `medium` 2s, `high` 1s, 2s otherwise); the sampling loop emits
`start_time + k * interval` for `k` below both `max_frames` and the number of
interval steps strictly inside the duration; when it produced fewer than
`max_frames` candidates the candidate set becomes start / midpoint /
`end − 0.1` truncated to `max_frames`; the retrieved candidates are ranked
descending by quality and the top `max_frames` kept (every kept quality is at
least every dropped quality); the result is re-sorted ascending by time, so it
has at most `max_frames` entries in chronological, not quality, order. -/
theorem extract_from_scene_spec {Frame : Type} (readFrame : ℤ → Option Frame)
    (evalQuality : Frame → ℚ) (hashImage : Frame → String) (mode : String)
    (max_frames : ℕ) (fps : ℚ) (scene : KFScene) :
    (intervalFor "low" = 3 ∧ intervalFor "medium" = 2 ∧ intervalFor "high" = 1 ∧
      ∀ m : String, m ≠ "low" → m ≠ "medium" → m ≠ "high" → intervalFor m = 2) ∧
    sampleLoop scene.start_time scene.duration (intervalFor mode) 0 max_frames
      = (List.range (min max_frames ⌈scene.duration / intervalFor mode⌉₊)).map
          (fun k : ℕ => scene.start_time + (k : ℚ) * intervalFor mode) ∧
    ((sampleLoop scene.start_time scene.duration (intervalFor mode) 0 max_frames).length
        < max_frames →
      sampleTimes scene (intervalFor mode) max_frames
        = [scene.start_time, scene.start_time + scene.duration / 2,
            scene.end_time - 0.1].take max_frames) ∧
    (¬ (sampleLoop scene.start_time scene.duration (intervalFor mode) 0 max_frames).length
        < max_frames →
      sampleTimes scene (intervalFor mode) max_frames
        = sampleLoop scene.start_time scene.duration (intervalFor mode) 0 max_frames) ∧
    (extractFromScene readFrame evalQuality hashImage mode max_frames fps scene).length
      ≤ max_frames ∧
    ((extractFromScene readFrame evalQuality hashImage mode max_frames fps scene).map
        Keyframe.time).Chain' (· ≤ ·) ∧
    (∀ x ∈ (List.insertionSort qualityGE (candidatesFor readFrame evalQuality fps
          (sampleTimes scene (intervalFor mode) max_frames))).take max_frames,
      ∀ y ∈ (List.insertionSort qualityGE (candidatesFor readFrame evalQuality fps
          (sampleTimes scene (intervalFor mode) max_frames))).drop max_frames,
        y.quality_score ≤ x.quality_score) ∧
    ((extractFromScene readFrame evalQuality hashImage mode max_frames fps scene).map
        (fun kf => (kf.time, kf.quality_score))).Perm
      (((List.insertionSort qualityGE (candidatesFor readFrame evalQuality fps
          (sampleTimes scene (intervalFor mode) max_frames))).take max_frames).map
        (fun c => (c.time, c.quality_score))) := by
  refine ⟨⟨rfl, rfl, rfl, ?_⟩, ?_, ?_, ?_,
    extractFromScene_length_le readFrame evalQuality hashImage mode max_frames fps scene,
    extractFromScene_time_sorted readFrame evalQuality hashImage mode max_frames fps scene,
    ?_, ?_⟩
  · intro m h1 h2 h3
    unfold intervalFor
    rw [if_neg h1, if_neg h2, if_neg h3]
  · simpa using sampleLoop_closed scene.start_time scene.duration (intervalFor mode)
      (intervalFor_pos mode) max_frames 0
  · intro h
    simp only [sampleTimes]
    rw [if_pos h]
  · intro h
    simp only [sampleTimes]
    rw [if_neg h]
  · intro x hx y hy
    have hsorted : (List.insertionSort qualityGE (candidatesFor readFrame evalQuality fps
        (sampleTimes scene (intervalFor mode) max_frames))).Pairwise
        (@qualityGE Frame) :=
      List.sorted_insertionSort qualityGE _
    have hdecomp := (List.take_append_drop max_frames (List.insertionSort qualityGE
      (candidatesFor readFrame evalQuality fps
        (sampleTimes scene (intervalFor mode) max_frames)))).symm
    rw [hdecomp] at hsorted
    have hsplit := List.pairwise_append.mp hsorted
    exact hsplit.2.2 x hx y hy
  · simp only [extractFromScene]
    rw [buildKeyframes_map_tq]
    exact (List.perm_insertionSort timeLE _).map _

/-- Witness for `extract_from_scene_spec` at a concrete scene and trivial
frame provider. -/
theorem extract_from_scene_spec_witness :
    (intervalFor "low" = 3 ∧ intervalFor "medium" = 2 ∧ intervalFor "high" = 1 ∧
      ∀ m : String, m ≠ "low" → m ≠ "medium" → m ≠ "high" → intervalFor m = 2) ∧
    sampleLoop c7scene.start_time c7scene.duration (intervalFor "medium") 0 3
      = (List.range (min 3 ⌈c7scene.duration / intervalFor "medium"⌉₊)).map
          (fun k : ℕ => c7scene.start_time + (k : ℚ) * intervalFor "medium") ∧
    ((sampleLoop c7scene.start_time c7scene.duration (intervalFor "medium") 0 3).length < 3 →
      sampleTimes c7scene (intervalFor "medium") 3
        = [c7scene.start_time, c7scene.start_time + c7scene.duration / 2,
            c7scene.end_time - 0.1].take 3) ∧
    (¬ (sampleLoop c7scene.start_time c7scene.duration (intervalFor "medium") 0 3).length < 3 →
      sampleTimes c7scene (intervalFor "medium") 3
        = sampleLoop c7scene.start_time c7scene.duration (intervalFor "medium") 0 3) ∧
    (extractFromScene c7read c7qual c7hash "medium" 3 25 c7scene).length ≤ 3 ∧
    ((extractFromScene c7read c7qual c7hash "medium" 3 25 c7scene).map
        Keyframe.time).Chain' (· ≤ ·) ∧
    (∀ x ∈ (List.insertionSort qualityGE (candidatesFor c7read c7qual 25
          (sampleTimes c7scene (intervalFor "medium") 3))).take 3,
      ∀ y ∈ (List.insertionSort qualityGE (candidatesFor c7read c7qual 25
          (sampleTimes c7scene (intervalFor "medium") 3))).drop 3,
        y.quality_score ≤ x.quality_score) ∧
    ((extractFromScene c7read c7qual c7hash "medium" 3 25 c7scene).map
        (fun kf => (kf.time, kf.quality_score))).Perm
      (((List.insertionSort qualityGE (candidatesFor c7read c7qual 25
          (sampleTimes c7scene (intervalFor "medium") 3))).take 3).map
        (fun c => (c.time, c.quality_score))) :=
  extract_from_scene_spec c7read c7qual c7hash "medium" 3 25 c7scene
